import Mathlib

/-!
Verification of the color-approximation core of base16-builder-python
(`pybase16_builder/xterm.py`).

The repository file `xterm.py` defines the pipeline
`approx_xterm_colors` → `rgb_xterm_diff_matrix` → `xterm_diffs` →
`xterm_non_system_colors` / `color_diff`.  The candidate-palette
generation and the matrix construction are embedded directly from that
source.  The perceptual color difference (CIEDE2000 via colormath) and
the minimum-cost assignment solver (munkres) are calls into external
libraries whose code is not part of the repository; those two
components are modelled from the specification (§4.1, §4.2, §4.5),
which describes them from the published formulas.
-/

/-- An 8-bit-per-channel RGB color (spec §3: three integers in [0,255];
in the source, candidate colors are `(r, g, b)` tuples). -/
structure RGBColor where
  r : Nat
  g : Nat
  b : Nat
deriving DecidableEq

/-- A CIE L*a*b* color (spec §3: three floating-point components). -/
structure LabColor where
  L : ℝ
  a : ℝ
  b : ℝ

/-- The channel scale of the 6×6×6 color cube; `color_vals` in
`xterm_non_system_colors`. -/
def color_vals : List Nat := [0, 95, 135, 175, 215, 255]

/-- Embedding of `xterm_non_system_colors` (xterm.py lines 30-40): all
xterm colors as `(r, g, b)` tuples starting from xterm color #16 — the
6×6×6 cube with red outermost, green middle, blue innermost, followed
by the 24-step grayscale ramp `range(8, 239, 10)`. -/
def xterm_non_system_colors : List (Nat × Nat × Nat) :=
  (color_vals.flatMap fun r =>
    color_vals.flatMap fun g =>
      color_vals.map fun b => (r, g, b)) ++
  ((List.range 24).map fun k => (8 + 10 * k, 8 + 10 * k, 8 + 10 * k))

/-- Degrees-to-radians conversion used by the CIEDE2000 terms. -/
noncomputable def rad (x : ℝ) : ℝ := x * Real.pi / 180

/-- Modelled from the spec (§4.2 step 1): the two-argument arctangent
used for hue angles (atan2 of b over a). -/
noncomputable def atan2 (y x : ℝ) : ℝ :=
  if 0 < x then Real.arctan (y / x)
  else if x < 0 then
    (if 0 ≤ y then Real.arctan (y / x) + Real.pi else Real.arctan (y / x) - Real.pi)
  else if 0 < y then Real.pi / 2
  else if y < 0 then -(Real.pi / 2)
  else 0

/-- Chroma of a Lab color from its a and b components (spec §4.2 step 1). -/
noncomputable def chroma (a b : ℝ) : ℝ := Real.sqrt (a ^ 2 + b ^ 2)

/-- The G correction factor computed from the mean chroma of the two
colors (spec §4.2 step 2). -/
noncomputable def gFactor (c1 c2 : ℝ) : ℝ :=
  0.5 * (1 - Real.sqrt (((c1 + c2) / 2) ^ 7 / (((c1 + c2) / 2) ^ 7 + 25 ^ 7)))

/-- Hue angle in degrees, normalized to [0, 360), from the corrected a
and the b component; 0 when both are zero (hue undefined at zero
chroma, spec §4.2 steps 1 and 3). -/
noncomputable def hueOf (ap b : ℝ) : ℝ :=
  if ap = 0 ∧ b = 0 then 0
  else if atan2 b ap * (180 / Real.pi) < 0 then atan2 b ap * (180 / Real.pi) + 360
  else atan2 b ap * (180 / Real.pi)

/-- Corrected a component of the first color of a pair (spec §4.2
step 2): the G factor from both chromas scales the a component. -/
noncomputable def aPrime (x y : LabColor) : ℝ :=
  (1 + gFactor (chroma x.a x.b) (chroma y.a y.b)) * x.a

/-- Corrected chroma of the first color of a pair (spec §4.2 step 2). -/
noncomputable def cPrime (x y : LabColor) : ℝ := chroma (aPrime x y) x.b

/-- Corrected hue of the first color of a pair (spec §4.2 step 2). -/
noncomputable def hPrime (x y : LabColor) : ℝ := hueOf (aPrime x y) x.b

/-- Hue difference along the shorter angular path, with wraparound at
the 0/360 boundary, and 0 when either chroma is zero (spec §4.2
step 3). -/
noncomputable def deltaSmallH (c1p c2p h1 h2 : ℝ) : ℝ :=
  if c1p * c2p = 0 then 0
  else if |h2 - h1| ≤ 180 then h2 - h1
  else if 180 < h2 - h1 then h2 - h1 - 360
  else h2 - h1 + 360

/-- ΔH, from Δh and the two corrected chromas (spec §4.2 step 4). -/
noncomputable def deltaBigH (c1p c2p h1 h2 : ℝ) : ℝ :=
  2 * Real.sqrt (c1p * c2p) * Real.sin (rad (deltaSmallH c1p c2p h1 h2 / 2))

/-- Mean corrected hue, with branch handling for near-180° separation
and the undefined-hue degeneracy (spec §4.2 step 5). -/
noncomputable def meanHue (c1p c2p h1 h2 : ℝ) : ℝ :=
  if c1p * c2p = 0 then h1 + h2
  else if |h1 - h2| ≤ 180 then (h1 + h2) / 2
  else if h1 + h2 < 360 then (h1 + h2 + 360) / 2
  else (h1 + h2 - 360) / 2

/-- The hue-dependent weighting polynomial T (spec §4.2 step 6). -/
noncomputable def tTerm (hbar : ℝ) : ℝ :=
  1 - 0.17 * Real.cos (rad (hbar - 30)) + 0.24 * Real.cos (rad (2 * hbar))
    + 0.32 * Real.cos (rad (3 * hbar + 6)) - 0.2 * Real.cos (rad (4 * hbar - 63))

/-- The lightness weighting function S_L (spec §4.2 step 6). -/
noncomputable def sL (l1 l2 : ℝ) : ℝ :=
  1 + 0.015 * ((l1 + l2) / 2 - 50) ^ 2 / Real.sqrt (20 + ((l1 + l2) / 2 - 50) ^ 2)

/-- The chroma weighting function S_C (spec §4.2 step 6). -/
noncomputable def sC (c1p c2p : ℝ) : ℝ := 1 + 0.045 * ((c1p + c2p) / 2)

/-- The hue weighting function S_H (spec §4.2 step 6). -/
noncomputable def sH (c1p c2p hbar : ℝ) : ℝ :=
  1 + 0.015 * ((c1p + c2p) / 2) * tTerm hbar

/-- The rotation term R_T correcting the chroma/hue interaction in the
blue region (spec §4.2 step 6). -/
noncomputable def rT (c1p c2p hbar : ℝ) : ℝ :=
  -(2 * Real.sqrt (((c1p + c2p) / 2) ^ 7 / (((c1p + c2p) / 2) ^ 7 + 25 ^ 7)) *
    Real.sin (rad (2 * (30 * Real.exp (-(((hbar - 275) / 25) ^ 2))))))

/-- Combination of the weighted differences into ΔE00, with
k_L = k_C = k_H = 1 (spec §4.2 step 7), as a function of the two
lightnesses, corrected chromas and corrected hues. -/
noncomputable def deltaEcore (l1 l2 c1p c2p h1 h2 : ℝ) : ℝ :=
  Real.sqrt (((l2 - l1) / sL l1 l2) ^ 2
    + ((c2p - c1p) / sC c1p c2p) ^ 2
    + (deltaBigH c1p c2p h1 h2 / sH c1p c2p (meanHue c1p c2p h1 h2)) ^ 2
    + rT c1p c2p (meanHue c1p c2p h1 h2) * ((c2p - c1p) / sC c1p c2p)
      * (deltaBigH c1p c2p h1 h2 / sH c1p c2p (meanHue c1p c2p h1 h2)))

/-- Modelled from the spec (§4.2): colormath's delta_e_cie2000 is an
external library call, not repository code; the CIEDE2000 difference of
two Lab colors per the published formula the spec prescribes. -/
noncomputable def deltaE2000 (x y : LabColor) : ℝ :=
  deltaEcore x.L y.L (cPrime x y) (cPrime y x) (hPrime x y) (hPrime y x)

/-- Modelled from the spec (§4.1): the sRGB-to-linear-RGB inverse gamma —
linear segment below threshold 0.04045, power law 2.4 above. -/
noncomputable def srgbToLinear (u : ℝ) : ℝ :=
  if u ≤ 0.04045 then u / 12.92 else ((u + 0.055) / 1.055) ^ (2.4 : ℝ)

/-- Modelled from the spec (§4.1): the CIE cube-root/linear piecewise
function with threshold (6/29)^3. -/
noncomputable def labF (t : ℝ) : ℝ :=
  if (6 / 29 : ℝ) ^ 3 < t then t ^ ((1 : ℝ) / 3)
  else t / (3 * (6 / 29) ^ 2) + 4 / 29

/-- Modelled from the spec (§4.1): colormath's conversion to Lab is an
external library call, not repository code; normalize channels, apply the
inverse gamma, the standard D65 linear-RGB-to-XYZ matrix, and the CIE
XYZ-to-Lab conversion with the D65 reference white. -/
noncomputable def toLab (c : RGBColor) : LabColor :=
  let r := srgbToLinear ((c.r : ℝ) / 255)
  let g := srgbToLinear ((c.g : ℝ) / 255)
  let b := srgbToLinear ((c.b : ℝ) / 255)
  let x := 0.4124 * r + 0.3576 * g + 0.1805 * b
  let y := 0.2126 * r + 0.7152 * g + 0.0722 * b
  let z := 0.0193 * r + 0.1192 * g + 0.9505 * b
  { L := 116 * labF (y / 1.0) - 16
    a := 500 * (labF (x / 0.95047) - labF (y / 1.0))
    b := 200 * (labF (y / 1.0) - labF (z / 1.08883)) }

/-- Embedding of `color_diff` (xterm.py lines 42-47): convert both
colors to Lab and compute the CIEDE2000 difference. -/
noncomputable def color_diff (c1 c2 : RGBColor) : ℝ :=
  deltaE2000 (toLab c1) (toLab c2)

/-- Embedding of `xterm_diffs` (xterm.py lines 20-28): the color
differences between one input color and every xterm candidate color, in
candidate-enumeration order. -/
noncomputable def xterm_diffs (c : RGBColor) : List ℝ :=
  xterm_non_system_colors.map fun x => color_diff c ⟨x.1, x.2.1, x.2.2⟩

/-- Embedding of `rgb_xterm_diff_matrix` (xterm.py lines 15-18): one
row of candidate differences per input color, in input order. -/
noncomputable def rgb_xterm_diff_matrix (colors : List RGBColor) : List (List ℝ) :=
  colors.map xterm_diffs

/-- The candidate color at a given palette position, as an RGBColor
(the tuple-to-color conversion `xterm_objs` performs in `xterm_diffs`). -/
def xtermCandidate (j : Nat) : RGBColor :=
  ⟨(xterm_non_system_colors.getD j (0, 0, 0)).1,
   (xterm_non_system_colors.getD j (0, 0, 0)).2.1,
   (xterm_non_system_colors.getD j (0, 0, 0)).2.2⟩

/-- Modelled from the spec (§4.5, §7): the single distinguishable
failure, raised when the input color count exceeds the candidate
count. -/
structure DimensionError

/-- Number of columns of a cost matrix: the length of its first row (an
empty matrix has no columns). -/
def ncols (mat : List (List ℝ)) : Nat := (mat.headD []).length

/-- All complete matchings of n rows to distinct columns among m
columns: the length-n duplicate-free lists over [0, m), enumerated with
the lowest column index first for each row, row 0 outermost. -/
def allMatchings : Nat → Nat → List (List Nat)
  | 0, _ => [[]]
  | n + 1, m =>
    (List.range m).flatMap fun c =>
      ((allMatchings n m).filter fun rest => decide (c ∉ rest)).map fun rest => c :: rest

/-- Total cost of a matching: the sum of the selected entries, row i
paired with its assigned column (spec §4.5). -/
noncomputable def matchingCost (mat : List (List ℝ)) (a : List Nat) : ℝ :=
  (List.zipWith (fun row c => row.getD c 0) mat a).sum

/-- First minimizer of f in a list, preferring the earliest entry on
ties — the deterministic lowest-column-index tie-break of spec §4.5
step 3, extensionally. -/
noncomputable def argminBy (f : List Nat → ℝ) : List (List Nat) → List Nat
  | [] => []
  | [a] => a
  | a :: b :: rest =>
    if f a ≤ f (argminBy f (b :: rest)) then a else argminBy f (b :: rest)

/-- Modelled from the spec (§4.5): the munkres solver is an external
library call, not repository code; `solve` fails with DimensionError
when the matrix has more rows than columns, and otherwise returns the
complete matching of every row to a distinct column minimizing the
total cost, with the deterministic tie-break. -/
noncomputable def solve (mat : List (List ℝ)) : Except DimensionError (List Nat) :=
  if ncols mat < mat.length then Except.error ⟨⟩
  else Except.ok (argminBy (matchingCost mat) (allMatchings mat.length (ncols mat)))

/-- Embedding of `approx_xterm_colors` (xterm.py lines 6-13): build the
difference matrix, solve the assignment, and yield column + 16 for each
row in order. -/
noncomputable def approx_xterm_colors (colors : List RGBColor) :
    Except DimensionError (List Nat) :=
  Except.map (List.map fun c => c + 16) (solve (rgb_xterm_diff_matrix colors))

/-- Claim C3: the candidate palette generator yields exactly 240
pairwise-distinct RGB triples; the entry at iteration position
`36*i + 6*j + k` (i, j, k < 6) is the cube color with red level i,
green level j, blue level k of the scale [0, 95, 135, 175, 215, 255]
(red outermost, green middle, blue innermost), and the entry at
position `216 + g` (g < 24) is the grayscale triple with component
`8 + 10*g`; hence position p carries terminal color index 16 + p. -/
theorem xterm_non_system_colors_spec :
    xterm_non_system_colors.length = 240 ∧
    xterm_non_system_colors.Nodup ∧
    (∀ i : Fin 6, ∀ j : Fin 6, ∀ k : Fin 6,
      xterm_non_system_colors.getD (36 * i.val + 6 * j.val + k.val) (0, 0, 0) =
        (color_vals.getD i.val 0, color_vals.getD j.val 0, color_vals.getD k.val 0)) ∧
    (∀ g : Fin 24,
      xterm_non_system_colors.getD (216 + g.val) (0, 0, 0) =
        (8 + 10 * g.val, 8 + 10 * g.val, 8 + 10 * g.val)) := by
  set_option maxRecDepth 100000 in decide

theorem deltaSmallH_antisymm (c1p c2p h1 h2 : ℝ) :
    deltaSmallH c1p c2p h1 h2 = -(deltaSmallH c2p c1p h2 h1) := by
  unfold deltaSmallH
  rw [mul_comm c2p c1p, abs_sub_comm h1 h2]
  rcases abs_cases (h2 - h1) with ⟨he, h0⟩ | ⟨he, h0⟩ <;> rw [he] <;>
    split_ifs <;> linarith

theorem meanHue_comm (c1p c2p h1 h2 : ℝ) :
    meanHue c1p c2p h1 h2 = meanHue c2p c1p h2 h1 := by
  unfold meanHue
  rw [mul_comm c2p c1p, abs_sub_comm h2 h1, add_comm h2 h1]

theorem deltaBigH_antisymm (c1p c2p h1 h2 : ℝ) :
    deltaBigH c1p c2p h1 h2 = -(deltaBigH c2p c1p h2 h1) := by
  unfold deltaBigH
  rw [deltaSmallH_antisymm c1p c2p h1 h2, mul_comm c2p c1p]
  have hr : rad (-(deltaSmallH c2p c1p h2 h1) / 2) =
      -(rad (deltaSmallH c2p c1p h2 h1 / 2)) := by
    unfold rad; ring
  rw [hr, Real.sin_neg]
  ring

theorem sL_comm (l1 l2 : ℝ) : sL l1 l2 = sL l2 l1 := by
  unfold sL; rw [add_comm l1 l2]

theorem sC_comm (c1p c2p : ℝ) : sC c1p c2p = sC c2p c1p := by
  unfold sC; rw [add_comm c1p c2p]

theorem sH_comm (c1p c2p h1 h2 : ℝ) :
    sH c1p c2p (meanHue c1p c2p h1 h2) = sH c2p c1p (meanHue c2p c1p h2 h1) := by
  rw [← meanHue_comm c1p c2p h1 h2]
  unfold sH; rw [add_comm c1p c2p]

theorem rT_comm (c1p c2p h1 h2 : ℝ) :
    rT c1p c2p (meanHue c1p c2p h1 h2) = rT c2p c1p (meanHue c2p c1p h2 h1) := by
  rw [← meanHue_comm c1p c2p h1 h2]
  unfold rT; rw [add_comm c1p c2p]

theorem deltaEcore_comm (l1 l2 c1p c2p h1 h2 : ℝ) :
    deltaEcore l1 l2 c1p c2p h1 h2 = deltaEcore l2 l1 c2p c1p h2 h1 := by
  unfold deltaEcore
  rw [← sL_comm l1 l2, ← sC_comm c1p c2p, ← sH_comm c1p c2p h1 h2,
    ← rT_comm c1p c2p h1 h2,
    show deltaBigH c2p c1p h2 h1 = -(deltaBigH c1p c2p h1 h2) by
      rw [deltaBigH_antisymm c1p c2p h1 h2]; ring]
  ring_nf

/-- Claim C6: the perceptual distance function is symmetric — for all
Lab colors x and y, deltaE2000 x y = deltaE2000 y x (exactly, in the
real-number model of the floating-point computation). -/
theorem deltaE2000_symm (x y : LabColor) : deltaE2000 x y = deltaE2000 y x := by
  unfold deltaE2000
  exact deltaEcore_comm x.L y.L (cPrime x y) (cPrime y x) (hPrime x y) (hPrime y x)

theorem deltaSmallH_self (c h : ℝ) : deltaSmallH c c h h = 0 := by
  unfold deltaSmallH
  rw [sub_self, abs_zero]
  norm_num [ite_self]

theorem deltaBigH_self (c h : ℝ) : deltaBigH c c h h = 0 := by
  unfold deltaBigH
  rw [deltaSmallH_self c h]
  have hr : rad (0 / 2) = 0 := by unfold rad; ring
  rw [hr, Real.sin_zero, mul_zero]

theorem deltaEcore_self (l c h : ℝ) : deltaEcore l l c c h h = 0 := by
  unfold deltaEcore
  rw [deltaBigH_self c h, sub_self]
  norm_num [Real.sqrt_zero]

/-- Claim C7: for every RGB color c, the perceptual distance of c to
itself is zero — deltaE2000 (toLab c) (toLab c) = 0, exactly, in the
real-number model of the floating-point computation, for every 8-bit
(indeed every) channel triple. -/
theorem deltaE2000_toLab_self (c : RGBColor) :
    deltaE2000 (toLab c) (toLab c) = 0 := by
  unfold deltaE2000
  exact deltaEcore_self (toLab c).L (cPrime (toLab c) (toLab c)) (hPrime (toLab c) (toLab c))

theorem xterm_colors_length : xterm_non_system_colors.length = 240 := by
  set_option maxRecDepth 10000 in decide

theorem length_xterm_diffs (c : RGBColor) : (xterm_diffs c).length = 240 := by
  unfold xterm_diffs
  rw [List.length_map]
  exact xterm_colors_length

theorem length_diff_matrix (colors : List RGBColor) :
    (rgb_xterm_diff_matrix colors).length = colors.length := by
  unfold rgb_xterm_diff_matrix
  rw [List.length_map]

theorem ncols_diff_matrix (c : RGBColor) (cs : List RGBColor) :
    ncols (rgb_xterm_diff_matrix (c :: cs)) = 240 := by
  unfold ncols rgb_xterm_diff_matrix
  rw [List.map_cons]
  exact length_xterm_diffs c

theorem getD_map_lt {α β : Type} (f : α → β) (l : List α) (i : Nat) (d1 : α) (d2 : β)
    (hi : i < l.length) : (l.map f).getD i d2 = f (l.getD i d1) := by
  induction l generalizing i with
  | nil => simp at hi
  | cons a t ih =>
    cases i with
    | zero => rfl
    | succ n =>
      have hn : n < t.length := by simpa using hi
      simpa using ih n hn

theorem mem_allMatchings {m : Nat} : ∀ {n : Nat} {a : List Nat},
    a ∈ allMatchings n m ↔ a.length = n ∧ a.Nodup ∧ ∀ x ∈ a, x < m := by
  intro n
  induction n with
  | zero =>
    intro a
    constructor
    · intro h
      simp only [allMatchings, List.mem_singleton] at h
      subst h
      simp
    · rintro ⟨hlen, -, -⟩
      rw [List.length_eq_zero] at hlen
      subst hlen
      simp [allMatchings]
  | succ n ih =>
    intro a
    constructor
    · intro h
      simp only [allMatchings, List.mem_flatMap, List.mem_map, List.mem_filter,
        List.mem_range] at h
      obtain ⟨c, hc, rest, ⟨hrest, hnotmem⟩, rfl⟩ := h
      rw [decide_eq_true_iff] at hnotmem
      obtain ⟨hlen, hnd, hbd⟩ := ih.mp hrest
      refine ⟨by simp [hlen], List.nodup_cons.mpr ⟨hnotmem, hnd⟩, ?_⟩
      intro x hx
      rcases List.mem_cons.mp hx with rfl | hx
      · exact hc
      · exact hbd x hx
    · rintro ⟨hlen, hnd, hbd⟩
      cases a with
      | nil => simp at hlen
      | cons c rest =>
        simp only [allMatchings, List.mem_flatMap, List.mem_map, List.mem_filter,
          List.mem_range]
        have hnd2 := List.nodup_cons.mp hnd
        refine ⟨c, hbd c (List.mem_cons_self c rest), rest,
          ⟨ih.mpr ⟨by simpa using hlen, hnd2.2,
            fun x hx => hbd x (List.mem_cons_of_mem c hx)⟩, ?_⟩, rfl⟩
        rw [decide_eq_true_iff]
        exact hnd2.1

theorem range_mem_allMatchings {n m : Nat} (h : n ≤ m) :
    List.range n ∈ allMatchings n m :=
  mem_allMatchings.mpr ⟨List.length_range n, List.nodup_range n,
    fun _x hx => lt_of_lt_of_le (List.mem_range.mp hx) h⟩

theorem argminBy_mem (f : List Nat → ℝ) :
    ∀ l : List (List Nat), l ≠ [] → argminBy f l ∈ l := by
  intro l
  induction l with
  | nil => intro h; exact absurd rfl h
  | cons a t ih =>
    intro _
    cases t with
    | nil => simp [argminBy]
    | cons b rest =>
      simp only [argminBy]
      split_ifs with h
      · exact List.mem_cons_self a (b :: rest)
      · exact List.mem_cons_of_mem a (ih (by simp))

theorem argminBy_le (f : List Nat → ℝ) :
    ∀ l : List (List Nat), ∀ x ∈ l, f (argminBy f l) ≤ f x := by
  intro l
  induction l with
  | nil => intro _x hx; simp at hx
  | cons a t ih =>
    intro x hx
    cases t with
    | nil =>
      rw [List.mem_singleton] at hx
      subst hx
      simp [argminBy]
    | cons b rest =>
      rcases List.mem_cons.mp hx with rfl | hx2
      · simp only [argminBy]
        split_ifs with h
        · exact le_refl _
        · exact le_of_lt (lt_of_not_le h)
      · simp only [argminBy]
        split_ifs with h
        · exact le_trans h (ih x hx2)
        · exact ih x hx2

theorem solve_error_of_lt (mat : List (List ℝ)) (h : ncols mat < mat.length) :
    solve mat = Except.error ⟨⟩ := by
  unfold solve
  rw [if_pos h]

theorem solve_ok_of_le (mat : List (List ℝ)) (h : mat.length ≤ ncols mat) :
    solve mat =
      Except.ok (argminBy (matchingCost mat) (allMatchings mat.length (ncols mat))) := by
  unfold solve
  rw [if_neg (by omega)]

theorem diff_matrix_rows_le (colors : List RGBColor) (h : colors.length ≤ 240) :
    (rgb_xterm_diff_matrix colors).length ≤ ncols (rgb_xterm_diff_matrix colors) := by
  cases colors with
  | nil => simp [rgb_xterm_diff_matrix]
  | cons c cs =>
    rw [length_diff_matrix, ncols_diff_matrix c cs]
    exact h

theorem ncols_diff_matrix_le (colors : List RGBColor) :
    ncols (rgb_xterm_diff_matrix colors) ≤ 240 := by
  cases colors with
  | nil => simp [rgb_xterm_diff_matrix, ncols]
  | cons c cs => rw [ncols_diff_matrix c cs]

theorem deltaE2000_nonneg (x y : LabColor) : 0 ≤ deltaE2000 x y := by
  unfold deltaE2000 deltaEcore
  exact Real.sqrt_nonneg _

/-- Claim C1: for every input list of N ≤ 240 colors, the end-to-end
call returns exactly N integers, each in [16, 255] and pairwise
distinct, where the output list is the solver's assignment with 16
added to each row's column index, in row (input) order. -/
theorem approx_xterm_colors_spec (colors : List RGBColor) (h : colors.length ≤ 240) :
    ∃ assign, solve (rgb_xterm_diff_matrix colors) = Except.ok assign ∧
      approx_xterm_colors colors = Except.ok (assign.map fun c => c + 16) ∧
      assign.length = colors.length ∧
      (assign.map fun c => c + 16).length = colors.length ∧
      (assign.map fun c => c + 16).Nodup ∧
      ∀ x ∈ assign.map fun c => c + 16, 16 ≤ x ∧ x ≤ 255 := by
  have hle := diff_matrix_rows_le colors h
  refine ⟨argminBy (matchingCost (rgb_xterm_diff_matrix colors))
      (allMatchings (rgb_xterm_diff_matrix colors).length (ncols (rgb_xterm_diff_matrix colors))),
    solve_ok_of_le _ hle, ?_, ?_, ?_, ?_, ?_⟩
  · unfold approx_xterm_colors
    rw [solve_ok_of_le _ hle]
    rfl
  all_goals {
    have hne : allMatchings (rgb_xterm_diff_matrix colors).length
        (ncols (rgb_xterm_diff_matrix colors)) ≠ [] :=
      List.ne_nil_of_mem (range_mem_allMatchings hle)
    have hmem := argminBy_mem (matchingCost (rgb_xterm_diff_matrix colors)) _ hne
    obtain ⟨hlen, hnd, hbd⟩ := mem_allMatchings.mp hmem
    first
    | (rw [hlen]; exact length_diff_matrix colors)
    | (rw [List.length_map, hlen]; exact length_diff_matrix colors)
    | exact List.Nodup.map (fun a b hab => by omega) hnd
    | (intro x hx
       obtain ⟨c, hc, rfl⟩ := List.mem_map.mp hx
       have hcb := hbd c hc
       have h240 := ncols_diff_matrix_le colors
       omega)
  }

/-- Witness for C1 at the concrete two-color input [black, white]. -/
theorem approx_xterm_colors_spec_witness :
    ∃ assign,
      solve (rgb_xterm_diff_matrix [⟨0, 0, 0⟩, ⟨255, 255, 255⟩]) = Except.ok assign ∧
      approx_xterm_colors [⟨0, 0, 0⟩, ⟨255, 255, 255⟩] =
        Except.ok (assign.map fun c => c + 16) ∧
      assign.length = ([⟨0, 0, 0⟩, ⟨255, 255, 255⟩] : List RGBColor).length ∧
      (assign.map fun c => c + 16).length =
        ([⟨0, 0, 0⟩, ⟨255, 255, 255⟩] : List RGBColor).length ∧
      (assign.map fun c => c + 16).Nodup ∧
      ∀ x ∈ assign.map fun c => c + 16, 16 ≤ x ∧ x ≤ 255 :=
  approx_xterm_colors_spec [⟨0, 0, 0⟩, ⟨255, 255, 255⟩] (by decide)

/-- Claim C2: for every cost matrix with no more rows than columns, the
solver returns a complete matching of every row to a distinct column
whose total cost is minimal — no other such matching costs strictly
less. -/
theorem solve_optimal (mat : List (List ℝ)) (h : mat.length ≤ ncols mat) :
    ∃ a, solve mat = Except.ok a ∧
      a.length = mat.length ∧ a.Nodup ∧ (∀ x ∈ a, x < ncols mat) ∧
      ∀ b : List Nat, b.length = mat.length → b.Nodup → (∀ x ∈ b, x < ncols mat) →
        matchingCost mat a ≤ matchingCost mat b := by
  refine ⟨argminBy (matchingCost mat) (allMatchings mat.length (ncols mat)),
    solve_ok_of_le mat h, ?_⟩
  have hne : allMatchings mat.length (ncols mat) ≠ [] :=
    List.ne_nil_of_mem (range_mem_allMatchings h)
  obtain ⟨hlen, hnd, hbd⟩ := mem_allMatchings.mp (argminBy_mem (matchingCost mat) _ hne)
  exact ⟨hlen, hnd, hbd, fun b hbl hbn hbb =>
    argminBy_le (matchingCost mat) _ b (mem_allMatchings.mpr ⟨hbl, hbn, hbb⟩)⟩

/-- Witness for C2 at the concrete 2×2 matrix [[0, 1], [1, 0]]. -/
theorem solve_optimal_witness :
    ∃ a, solve [[(0 : ℝ), 1], [1, 0]] = Except.ok a ∧
      a.length = ([[(0 : ℝ), 1], [1, 0]] : List (List ℝ)).length ∧ a.Nodup ∧
      (∀ x ∈ a, x < ncols [[(0 : ℝ), 1], [1, 0]]) ∧
      ∀ b : List Nat, b.length = ([[(0 : ℝ), 1], [1, 0]] : List (List ℝ)).length →
        b.Nodup → (∀ x ∈ b, x < ncols [[(0 : ℝ), 1], [1, 0]]) →
        matchingCost [[(0 : ℝ), 1], [1, 0]] a ≤ matchingCost [[(0 : ℝ), 1], [1, 0]] b :=
  solve_optimal [[(0 : ℝ), 1], [1, 0]] (by decide)

/-- Claim C4: with more than 240 input colors the pipeline surfaces
DimensionError and returns no assignment; with at most 240 input colors
no such error is raised. -/
theorem approx_xterm_colors_dimension (colors : List RGBColor) :
    (240 < colors.length → approx_xterm_colors colors = Except.error ⟨⟩) ∧
    (colors.length ≤ 240 → ∃ out, approx_xterm_colors colors = Except.ok out) := by
  constructor
  · intro hgt
    cases colors with
    | nil => simp at hgt
    | cons c cs =>
      unfold approx_xterm_colors
      rw [solve_error_of_lt _ (by rw [length_diff_matrix, ncols_diff_matrix c cs]; omega)]
      rfl
  · intro hle
    unfold approx_xterm_colors
    rw [solve_ok_of_le _ (diff_matrix_rows_le colors hle)]
    exact ⟨_, rfl⟩

/-- Witness for C4: 241 input colors fail, one input color succeeds. -/
theorem approx_xterm_colors_dimension_witness :
    approx_xterm_colors (List.replicate 241 ⟨0, 0, 0⟩) = Except.error ⟨⟩ :=
  (approx_xterm_colors_dimension (List.replicate 241 ⟨0, 0, 0⟩)).1
    (by rw [List.length_replicate]; omega)

/-- Claim C5: the cost matrix built for N input colors has exactly N
rows in input order, each row has exactly 240 entries in
candidate-enumeration order, and the entry at row i, column j is the
non-negative CIEDE2000 distance between input color i and candidate j. -/
theorem rgb_xterm_diff_matrix_spec (colors : List RGBColor) :
    (rgb_xterm_diff_matrix colors).length = colors.length ∧
    (∀ row ∈ rgb_xterm_diff_matrix colors, row.length = 240) ∧
    ∀ i : Fin colors.length, ∀ j : Fin 240,
      ((rgb_xterm_diff_matrix colors).getD i.val []).getD j.val 0 =
        deltaE2000 (toLab (colors.getD i.val ⟨0, 0, 0⟩)) (toLab (xtermCandidate j.val)) ∧
      0 ≤ ((rgb_xterm_diff_matrix colors).getD i.val []).getD j.val 0 := by
  refine ⟨length_diff_matrix colors, ?_, ?_⟩
  · intro row hrow
    obtain ⟨c, -, rfl⟩ := List.mem_map.mp hrow
    exact length_xterm_diffs c
  · intro i j
    have hrow : (rgb_xterm_diff_matrix colors).getD i.val [] =
        xterm_diffs (colors.getD i.val ⟨0, 0, 0⟩) :=
      getD_map_lt xterm_diffs colors i.val ⟨0, 0, 0⟩ [] i.isLt
    have hj : j.val < xterm_non_system_colors.length := by
      rw [xterm_colors_length]
      exact j.isLt
    have hentry : (xterm_diffs (colors.getD i.val ⟨0, 0, 0⟩)).getD j.val 0 =
        color_diff (colors.getD i.val ⟨0, 0, 0⟩) (xtermCandidate j.val) := by
      unfold xterm_diffs
      exact getD_map_lt _ xterm_non_system_colors j.val (0, 0, 0) 0 hj
    rw [hrow, hentry]
    exact ⟨rfl, deltaE2000_nonneg _ _⟩

/-- Witness for C5 at the concrete one-color input [black]. -/
theorem rgb_xterm_diff_matrix_spec_witness :
    (rgb_xterm_diff_matrix [⟨0, 0, 0⟩]).length = ([⟨0, 0, 0⟩] : List RGBColor).length ∧
    (∀ row ∈ rgb_xterm_diff_matrix [⟨0, 0, 0⟩], row.length = 240) ∧
    ∀ i : Fin ([⟨0, 0, 0⟩] : List RGBColor).length, ∀ j : Fin 240,
      ((rgb_xterm_diff_matrix [⟨0, 0, 0⟩]).getD i.val []).getD j.val 0 =
        deltaE2000 (toLab (([⟨0, 0, 0⟩] : List RGBColor).getD i.val ⟨0, 0, 0⟩))
          (toLab (xtermCandidate j.val)) ∧
      0 ≤ ((rgb_xterm_diff_matrix [⟨0, 0, 0⟩]).getD i.val []).getD j.val 0 :=
  rgb_xterm_diff_matrix_spec [⟨0, 0, 0⟩]

/-- Claim C8: the empty input list is valid — the cost matrix is the
empty matrix and the end-to-end call returns the empty output sequence
without failing. -/
theorem approx_xterm_colors_empty :
    rgb_xterm_diff_matrix [] = [] ∧ approx_xterm_colors [] = Except.ok [] :=
  ⟨rfl, rfl⟩

/-- Claim C9: the end-to-end computation is deterministic — calls on
identical input lists produce identical output (the embedded pipeline
is a pure function of its input, and the modelled solver breaks ties
deterministically by lowest column index). -/
theorem approx_xterm_colors_deterministic (xs ys : List RGBColor) (h : xs = ys) :
    approx_xterm_colors xs = approx_xterm_colors ys := by rw [h]

/-- Witness for C9 at a concrete one-element input. -/
theorem approx_xterm_colors_deterministic_witness :
    approx_xterm_colors [⟨10, 20, 30⟩] = approx_xterm_colors [⟨10, 20, 30⟩] :=
  approx_xterm_colors_deterministic [⟨10, 20, 30⟩] [⟨10, 20, 30⟩] rfl
